import Mathlib

/-!
Shallow embedding of the `db-server` repository (src/lib.rs, src/error.rs):
a minimal key-value store behind a hand-rolled line-oriented protocol, with
JSON persistence.  Strings are modelled as `List Char` (Rust `str` is a
sequence of Unicode scalar values, exactly Lean's `Char`).  The in-memory
`HashMap<String, Value>` is modelled as an association list whose lookup is
first-match; `serde_json::Value` is modelled by the inductive `Json` (numbers
restricted to integers: the float fragment of serde is outside the shallow
embedding).
-/

namespace DbServer

/-- Model of Rust `char::is_whitespace` (the Unicode `White_Space` property),
used by `str::split_whitespace`. -/
def rustIsWhitespace (c : Char) : Bool :=
  c.toNat = 0x09 || c.toNat = 0x0A || c.toNat = 0x0B || c.toNat = 0x0C ||
  c.toNat = 0x0D || c.toNat = 0x20 || c.toNat = 0x85 || c.toNat = 0xA0 ||
  c.toNat = 0x1680 || (0x2000 ≤ c.toNat && c.toNat ≤ 0x200A) ||
  c.toNat = 0x2028 || c.toNat = 0x2029 || c.toNat = 0x202F ||
  c.toNat = 0x205F || c.toNat = 0x3000

/-- Worker for `rustSplit`: scans the input for occurrences of the nonempty
pattern `c0 :: sep'`, reproducing Rust `str::split` (non-overlapping,
left-to-right). -/
def splitGo (c0 : Char) (sep' : List Char) : List Char → List (List Char)
  | [] => [[]]
  | c :: rest =>
    if c = c0 ∧ sep'.isPrefixOf rest then
      [] :: splitGo c0 sep' (rest.drop sep'.length)
    else
      match splitGo c0 sep' rest with
      | [] => [[c]]
      | hd :: tl => (c :: hd) :: tl
  termination_by s => s.length
  decreasing_by
    · simp only [List.length_drop, List.length_cons]; omega
    · simp

/-- Model of Rust `str::split` with a substring pattern, as used in
`parse_get` (`split("key=")`) and `parse_set` (`split("set?")`,
`split('=')`).  The empty pattern is never used by the source. -/
def rustSplit (sep s : List Char) : List (List Char) :=
  match sep with
  | [] => [s]
  | c0 :: sep' => splitGo c0 sep' s

/-- Model of Rust `str::split_whitespace().next()`: the first maximal run of
non-whitespace characters, or `none` when the string is empty or all
whitespace. -/
def splitWhitespaceNext (s : List Char) : Option (List Char) :=
  match s.dropWhile rustIsWhitespace with
  | [] => none
  | c :: rest => some ((c :: rest).takeWhile (fun ch => !rustIsWhitespace ch))

/-- Model of Rust `str::lines().take(1).next()`: `none` on the empty string,
otherwise the text up to the first `\n` with one trailing `\r` removed when
the line was actually terminated by a `\n`. -/
def linesNext (s : List Char) : Option (List Char) :=
  match s with
  | [] => none
  | c :: rest =>
    let line := (c :: rest).takeWhile (fun ch => ch ≠ '\n')
    if line.length < (c :: rest).length then
      some (if line.getLast? = some '\r' then line.dropLast else line)
    else
      some line

/-- Model of `error.rs` `ParseError` (`InvalidRequest { code: u32 }`,
`MissingKey`). -/
inductive ParseError where
  | invalidRequest (code : Nat)
  | missingKey
  deriving DecidableEq, Repr

/-- Model of `std::io::ErrorKind`, the only part of `std::io::Error` the
claims observe. -/
inductive IoErrorKind where
  | notFound
  | permissionDenied
  | other
  deriving DecidableEq, Repr

/-- Model of `error.rs` `ServerError`.  `parseError` carries the rendered
`ParseError` message (the source stores `err.to_string()`). -/
inductive ServerError where
  | parseError (reason : List Char)
  | connectionError
  | invalidRequest
  | noRequestFound
  | noResponseFound
  | ioError (e : IoErrorKind)
  deriving DecidableEq, Repr

/-- Decimal digits of a natural number, matching Rust's `{:?}`/`to_string`
rendering of an unsigned integer. -/
def natDigits (n : Nat) : List Char :=
  if h : n < 10 then [Char.ofNat (48 + n)]
  else natDigits (n / 10) ++ [Char.ofNat (48 + n % 10)]
  termination_by n
  decreasing_by
    have : 10 ≤ n := Nat.le_of_not_lt h
    omega

/-- Rendering of `ParseError` by its `thiserror` display strings, as
`parse_request` does with `err.to_string()`. -/
def displayParseError : ParseError → List Char
  | .invalidRequest code =>
      "Request was improperly formatted: ".toList ++ natDigits code
  | .missingKey => "No key found in request".toList

/-- Constant `GET_HEADER` from lib.rs. -/
def GET_HEADER : List Char := "GET /get?key=".toList

/-- Constant `SET_HEADER` from lib.rs. -/
def SET_HEADER : List Char := "GET /set?".toList

/-- Constant `SUCCESS_STATUS` from lib.rs. -/
def SUCCESS_STATUS : List Char := "HTTP/1.1 200 OK\r\n\r\n".toList

/-- Constant `NOT_FOUND_STATUS` from lib.rs. -/
def NOT_FOUND_STATUS : List Char := "HTTP/1.1 404 NOT FOUND\r\n\r\n".toList

/-- Embedding of `parse_get` (lib.rs lines 146-159): split the request line
on `"key="` requiring exactly two segments, then take the first
whitespace-delimited token of the last segment as the key. -/
def parse_get (request : List Char) : Except ParseError (List Char) :=
  let parts := rustSplit "key=".toList request
  if parts.length ≠ 2 then
    .error (.invalidRequest 1)
  else
    match splitWhitespaceNext (parts.getLastD []) with
    | some key => .ok key
    | none => .error .missingKey

/-- Embedding of `parse_set` (lib.rs lines 161-185): split the request line
on `"set?"` requiring exactly two segments, take the first
whitespace-delimited token of the last segment, split that token on `'='`
requiring exactly two segments, and return (key, value). -/
def parse_set (request : List Char) : Except ParseError (List Char × List Char) :=
  let parts := rustSplit "set?".toList request
  if parts.length ≠ 2 then
    .error (.invalidRequest 2)
  else
    match splitWhitespaceNext (parts.getLastD []) with
    | some kv =>
      let kvParts := rustSplit ['='] kv
      if kvParts.length ≠ 2 then
        .error (.invalidRequest 3)
      else
        .ok (kvParts.headD [], kvParts.getLastD [])
    | none => .error (.invalidRequest 4)

mutual

/-- Model of `serde_json::Value` as stored in `Storage`.  Numbers are
restricted to integers (`serde_json::Number`'s float variant lies outside the
shallow embedding); arrays and objects use mutual list types so that the
serializer and its proofs are structural. -/
inductive Json where
  | null : Json
  | bool (b : Bool) : Json
  | num (n : Int) : Json
  | str (s : List Char) : Json
  | arr (elems : JsonArr) : Json
  | obj (mems : JsonObj) : Json
  deriving DecidableEq, Repr

/-- List of JSON values (array elements). -/
inductive JsonArr where
  | nil : JsonArr
  | cons (hd : Json) (tl : JsonArr) : JsonArr
  deriving DecidableEq, Repr

/-- List of JSON object members (key / value pairs). -/
inductive JsonObj where
  | nil : JsonObj
  | cons (key : List Char) (val : Json) (tl : JsonObj) : JsonObj
  deriving DecidableEq, Repr

end

/-- Lowercase hex digit, as serde_json's escape table uses. -/
def hexDigit (n : Nat) : Char :=
  if n < 10 then Char.ofNat (48 + n) else Char.ofNat (97 + (n - 10))

/-- Escape of one character inside a JSON string, following serde_json's
default formatter: `"` and `\` get a backslash, the control characters
`\b \t \n \f \r` use their short escapes, other control characters use
`\u00XX` with lowercase hex, and everything else is emitted verbatim. -/
def escapeChar (c : Char) : List Char :=
  if c = '"' then ['\\', '"']
  else if c = '\\' then ['\\', '\\']
  else if c.toNat = 8 then ['\\', 'b']
  else if c.toNat = 9 then ['\\', 't']
  else if c.toNat = 10 then ['\\', 'n']
  else if c.toNat = 12 then ['\\', 'f']
  else if c.toNat = 13 then ['\\', 'r']
  else if c.toNat < 0x20 then
    ['\\', 'u', '0', '0', hexDigit (c.toNat / 16), hexDigit (c.toNat % 16)]
  else [c]

/-- Escape of a whole JSON string body. -/
def escapeStr : List Char → List Char
  | [] => []
  | c :: cs => escapeChar c ++ escapeStr cs

/-- Decimal rendering of an integer (Rust `i64`/`u64` `to_string`). -/
def serInt (n : Int) : List Char :=
  if n < 0 then '-' :: natDigits n.natAbs else natDigits n.natAbs

mutual

/-- Compact JSON serialization of a value, following
`serde_json::to_string`. -/
def serV : Json → List Char
  | .null => 'n' :: 'u' :: 'l' :: 'l' :: []
  | .bool true => 't' :: 'r' :: 'u' :: 'e' :: []
  | .bool false => 'f' :: 'a' :: 'l' :: 's' :: 'e' :: []
  | .num n => serInt n
  | .str s => '"' :: (escapeStr s ++ ['"'])
  | .arr .nil => '[' :: ']' :: []
  | .arr (.cons v t) => '[' :: (serV v ++ serArrRest t)
  | .obj .nil => '{' :: '}' :: []
  | .obj (.cons k v t) => '{' :: (serMember k v ++ serObjRest t)

/-- Serialization of the tail of a nonempty array: `,elem...` then `]`. -/
def serArrRest : JsonArr → List Char
  | .nil => [']']
  | .cons v t => ',' :: (serV v ++ serArrRest t)

/-- Serialization of one object member: `"key":value`. -/
def serMember (k : List Char) (v : Json) : List Char :=
  '"' :: (escapeStr k ++ '"' :: ':' :: serV v)

/-- Serialization of the tail of a nonempty object: `,member...` then `}`. -/
def serObjRest : JsonObj → List Char
  | .nil => ['}']
  | .cons k v t => ',' :: (serMember k v ++ serObjRest t)

end

/-- Model of lib.rs `Storage` (`HashMap<String, Value>`): an association
list with first-match lookup.  The listener mutates it only through
`handle_request`. -/
abbrev Storage : Type := List (List Char × Json)

/-- HashMap lookup: the value of the first entry with the given key. -/
def findKV : Storage → List Char → Option Json
  | [], _ => none
  | (k', v) :: rest, k => if k' = k then some v else findKV rest k

/-- HashMap insert-or-overwrite: replace the first entry with the given key
in place, or append a fresh entry — the model of
`entry(..).replace_entry(..)` / `Vacant::insert`. -/
def insertKV : Storage → List Char → Json → Storage
  | [], k, v => [(k, v)]
  | (k', v') :: rest, k, v =>
    if k' = k then (k', v) :: rest else (k', v') :: insertKV rest k v

/-- Model of lib.rs `Request`. -/
inductive Request where
  | get (key : List Char)
  | set (key val : List Char)
  deriving DecidableEq, Repr

/-- Model of lib.rs `Response`. -/
inductive Response where
  | getSuccess (payload : List Char)
  | setSuccess
  | notFound
  deriving DecidableEq, Repr

/-- Embedding of `handle_request` (lib.rs lines 92-123).  A `Get` looks the
key up without mutating the map and renders a hit with `Value::to_string()`
(its JSON serialization); a `Set` stores `Value::from(val)` — a JSON string
value — overwriting any occupied entry. -/
def handle_request (request : Request) (storage : Storage) : Response × Storage :=
  match request with
  | .get key =>
    match findKV storage key with
    | some val => (.getSuccess (serV val), storage)
    | none => (.notFound, storage)
  | .set key val => (.setSuccess, insertKV storage key (.str val))

/-- Decode step of `String::from_utf8_lossy`: given the first byte and the
remaining bytes, produce the decoded character (U+FFFD on an invalid
sequence) and the count of additional bytes consumed, following the WHATWG
maximal-subpart rule. -/
def utf8DecodeOne (b : UInt8) (rest : List UInt8) : Char × Nat :=
  let cont : UInt8 → Bool := fun x => 0x80 ≤ x && x ≤ 0xBF
  let repl : Char := Char.ofNat 0xFFFD
  if b ≤ 0x7F then
    (Char.ofNat b.toNat, 0)
  else if 0xC2 ≤ b && b ≤ 0xDF then
    match rest with
    | b2 :: _ =>
      if cont b2 then
        (Char.ofNat ((b.toNat - 0xC0) * 0x40 + (b2.toNat - 0x80)), 1)
      else (repl, 0)
    | [] => (repl, 0)
  else if 0xE0 ≤ b && b ≤ 0xEF then
    match rest with
    | b2 :: rest2 =>
      let lo2 : UInt8 := if b = 0xE0 then 0xA0 else 0x80
      let hi2 : UInt8 := if b = 0xED then 0x9F else 0xBF
      if lo2 ≤ b2 && b2 ≤ hi2 then
        match rest2 with
        | b3 :: _ =>
          if cont b3 then
            (Char.ofNat (((b.toNat - 0xE0) * 0x40 + (b2.toNat - 0x80)) * 0x40
              + (b3.toNat - 0x80)), 2)
          else (repl, 1)
        | [] => (repl, 1)
      else (repl, 0)
    | [] => (repl, 0)
  else if 0xF0 ≤ b && b ≤ 0xF4 then
    match rest with
    | b2 :: rest2 =>
      let lo2 : UInt8 := if b = 0xF0 then 0x90 else 0x80
      let hi2 : UInt8 := if b = 0xF4 then 0x8F else 0xBF
      if lo2 ≤ b2 && b2 ≤ hi2 then
        match rest2 with
        | b3 :: rest3 =>
          if cont b3 then
            match rest3 with
            | b4 :: _ =>
              if cont b4 then
                (Char.ofNat ((((b.toNat - 0xF0) * 0x40 + (b2.toNat - 0x80)) * 0x40
                  + (b3.toNat - 0x80)) * 0x40 + (b4.toNat - 0x80)), 3)
              else (repl, 2)
            | [] => (repl, 2)
          else (repl, 1)
        | [] => (repl, 1)
      else (repl, 0)
    | [] => (repl, 0)
  else
    (repl, 0)

/-- Model of `String::from_utf8_lossy`: decode every byte, emitting U+FFFD
for invalid sequences.  Each step consumes the lead byte plus the extra
bytes `utf8DecodeOne` reports. -/
def utf8Lossy : List UInt8 → List Char
  | [] => []
  | b :: rest =>
    let (c, k) := utf8DecodeOne b rest
    c :: utf8Lossy (rest.drop k)
  termination_by l => l.length
  decreasing_by
    simp only [List.length_cons]
    have := List.length_drop k rest
    omega

/-- Embedding of `parse_request` (lib.rs lines 187-213) applied to the
1024-byte read buffer: lossy-decode the buffer, take the first line, then
dispatch on the literal prefixes `GET_HEADER` and `SET_HEADER`; parse errors
are wrapped with their display string, any other first line is
`InvalidRequest`. -/
def parse_request (buffer : List UInt8) : Except ServerError Request :=
  let request := utf8Lossy buffer
  match linesNext request with
  | none => .error .noRequestFound
  | some line =>
    if GET_HEADER.isPrefixOf line then
      match parse_get line with
      | .ok key => .ok (.get key)
      | .error e => .error (.parseError (displayParseError e))
    else if SET_HEADER.isPrefixOf line then
      match parse_set line with
      | .ok kv => .ok (.set kv.1 kv.2)
      | .error e => .error (.parseError (displayParseError e))
    else
      .error .invalidRequest

/-- Embedding of `send_response` (lib.rs lines 125-144), with the filesystem
abstracted as a partial map from file names to contents: pick the status
line and body file for the response, fail with `NoResponseFound` when the
body file is unreadable, and otherwise return the bytes written to the
connection (status ++ body ++ retrieved value for a `GetSuccess`). -/
def send_response (files : List Char → Option (List Char)) (response : Response) :
    Except ServerError (List Char) :=
  let (statusLine, filename, rv) :=
    match response with
    | .getSuccess val => (SUCCESS_STATUS, "get_success.html".toList, some val)
    | .setSuccess => (SUCCESS_STATUS, "set_success.html".toList, none)
    | .notFound => (NOT_FOUND_STATUS, "404.html".toList, none)
  match files filename with
  | none => .error .noResponseFound
  | some contents =>
    match rv with
    | some val => .ok (statusLine ++ contents ++ val)
    | none => .ok (statusLine ++ contents)

/-- What the listener loop does after handling one accepted connection. -/
inductive LoopSignal where
  | continueLoop
  | fatal (e : ServerError)
  deriving DecidableEq, Repr

/-- Embedding of one iteration of the listener loop in `server_init`
(lib.rs lines 52-65): parse the buffer; on success handle the request and
write the rendered response; on `InvalidRequest` skip the connection
silently and continue; on any other error abort the loop.  The first
component is the bytes written to the connection (`none` = nothing
written). -/
def serverStep (files : List Char → Option (List Char)) (buffer : List UInt8)
    (storage : Storage) : Option (List Char) × Storage × LoopSignal :=
  match parse_request buffer with
  | .ok request =>
    let (response, storage') := handle_request request storage
    match send_response files response with
    | .ok bytes => (some bytes, storage', .continueLoop)
    | .error e => (none, storage', .fatal e)
  | .error e =>
    match e with
    | .invalidRequest => (none, storage, .continueLoop)
    | _ => (none, storage, .fatal e)

/-- Value of a hexadecimal digit character (either case), `none` otherwise. -/
def hexVal (c : Char) : Option Nat :=
  if 48 ≤ c.toNat ∧ c.toNat ≤ 57 then some (c.toNat - 48)
  else if 97 ≤ c.toNat ∧ c.toNat ≤ 102 then some (c.toNat - 97 + 10)
  else if 65 ≤ c.toNat ∧ c.toNat ≤ 70 then some (c.toNat - 65 + 10)
  else none

/-- Parse the body of a JSON string after the opening quote, undoing
serde_json's escapes; returns the decoded string and the input after the
closing quote.  Escaped surrogate code points are rejected (the model omits
serde's surrogate-pair recombination, which the serializer never emits). -/
def parseStringBody : List Char → Option (List Char × List Char)
  | [] => none
  | c :: rest =>
    if c = '"' then some ([], rest)
    else if c = '\\' then
      match rest with
      | [] => none
      | e :: rest2 =>
        if e = '"' then (parseStringBody rest2).map (fun p => ('"' :: p.1, p.2))
        else if e = '\\' then (parseStringBody rest2).map (fun p => ('\\' :: p.1, p.2))
        else if e = '/' then (parseStringBody rest2).map (fun p => ('/' :: p.1, p.2))
        else if e = 'b' then (parseStringBody rest2).map (fun p => (Char.ofNat 8 :: p.1, p.2))
        else if e = 't' then (parseStringBody rest2).map (fun p => (Char.ofNat 9 :: p.1, p.2))
        else if e = 'n' then (parseStringBody rest2).map (fun p => (Char.ofNat 10 :: p.1, p.2))
        else if e = 'f' then (parseStringBody rest2).map (fun p => (Char.ofNat 12 :: p.1, p.2))
        else if e = 'r' then (parseStringBody rest2).map (fun p => (Char.ofNat 13 :: p.1, p.2))
        else if e = 'u' then
          match rest2 with
          | h1 :: h2 :: h3 :: h4 :: rest3 =>
            match hexVal h1, hexVal h2, hexVal h3, hexVal h4 with
            | some a, some b, some c3, some d =>
              let n := ((a * 16 + b) * 16 + c3) * 16 + d
              if 0xD800 ≤ n ∧ n ≤ 0xDFFF then none
              else (parseStringBody rest3).map (fun p => (Char.ofNat n :: p.1, p.2))
            | _, _, _, _ => none
          | _ => none
        else none
    else (parseStringBody rest).map (fun p => (c :: p.1, p.2))
  termination_by s => s.length
  decreasing_by all_goals simp_arith [List.length_cons]

/-- Accumulating decimal parser: consume leading digit characters. -/
def parseNatAcc : List Char → Nat → Nat × List Char
  | [], acc => (acc, [])
  | c :: rest, acc =>
    if c.isDigit then parseNatAcc rest (acc * 10 + (c.toNat - 48)) else (acc, c :: rest)

/-- Parse a nonempty run of decimal digits. -/
def parseNat (s : List Char) : Option (Nat × List Char) :=
  match s with
  | c :: _ => if c.isDigit then some (parseNatAcc s 0) else none
  | [] => none

mutual

/-- Fuel-indexed parser for the compact JSON grammar the serializer emits
(the model of `serde_json::from_str` on that language; inter-token
whitespace and float literals are outside the model). -/
def parseValue : Nat → List Char → Option (Json × List Char)
  | 0, _ => none
  | fuel + 1, s =>
    match s with
    | [] => none
    | c :: rest =>
      if c = 'n' then
        match rest with
        | 'u' :: 'l' :: 'l' :: r => some (.null, r)
        | _ => none
      else if c = 't' then
        match rest with
        | 'r' :: 'u' :: 'e' :: r => some (.bool true, r)
        | _ => none
      else if c = 'f' then
        match rest with
        | 'a' :: 'l' :: 's' :: 'e' :: r => some (.bool false, r)
        | _ => none
      else if c = '"' then
        (parseStringBody rest).map (fun p => (.str p.1, p.2))
      else if c = '-' then
        (parseNat rest).map (fun p => (.num (-(p.1 : Int)), p.2))
      else if c.isDigit then
        (parseNat (c :: rest)).map (fun p => (.num (p.1 : Int), p.2))
      else if c = '[' then
        match rest with
        | ']' :: r => some (.arr .nil, r)
        | _ => (parseArrElems fuel rest).map (fun p => (.arr p.1, p.2))
      else if c = '{' then
        match rest with
        | '}' :: r => some (.obj .nil, r)
        | _ => (parseObjMembers fuel rest).map (fun p => (.obj p.1, p.2))
      else none

/-- Parse the elements of a nonempty array, positioned after `[` or `,`. -/
def parseArrElems : Nat → List Char → Option (JsonArr × List Char)
  | 0, _ => none
  | fuel + 1, s =>
    match parseValue fuel s with
    | none => none
    | some (v, rest) =>
      match rest with
      | ',' :: r => (parseArrElems fuel r).map (fun p => (.cons v p.1, p.2))
      | ']' :: r => some (.cons v .nil, r)
      | _ => none

/-- Parse the members of a nonempty object, positioned after `{` or `,`. -/
def parseObjMembers : Nat → List Char → Option (JsonObj × List Char)
  | 0, _ => none
  | fuel + 1, s =>
    match s with
    | '"' :: rest =>
      match parseStringBody rest with
      | none => none
      | some (k, rest2) =>
        match rest2 with
        | ':' :: rest3 =>
          match parseValue fuel rest3 with
          | none => none
          | some (v, rest4) =>
            match rest4 with
            | ',' :: r => (parseObjMembers fuel r).map (fun p => (.cons k v p.1, p.2))
            | '}' :: r => some (.cons k v .nil, r)
            | _ => none
        | _ => none
    | _ => none

end

/-- Parse a full JSON document (all input consumed), the model of
`serde_json::from_str` into a `Value`. -/
def from_str (s : List Char) : Option Json :=
  match parseValue (s.length + 1) s with
  | some (v, []) => some v
  | _ => none

/-- Association-list view of a `JsonObj`. -/
def objToPairs : JsonObj → List (List Char × Json)
  | .nil => []
  | .cons k v t => (k, v) :: objToPairs t

/-- JsonObj built from an association list. -/
def pairsToObj : List (List Char × Json) → JsonObj
  | [] => .nil
  | (k, v) :: t => .cons k v (pairsToObj t)

/-- HashMap built from a member list by repeated insertion (duplicate keys:
last write wins), the model of deserializing into `HashMap<String, Value>`. -/
def buildMap (pairs : List (List Char × Json)) : Storage :=
  pairs.foldl (fun acc p => insertKV acc p.1 p.2) []

/-- Model of `serde_json::from_str::<HashMap<String, Value>>`: parse a JSON
document and require a top-level object. -/
def loadFromString (s : List Char) : Option Storage :=
  match from_str s with
  | some (.obj o) => some (buildMap (objToPairs o))
  | _ => none

/-- Model of `serde_json::to_string(&self.0)` in `Drop for Storage`
(lib.rs lines 71-90): the flushed snapshot is the JSON object serialization
of the map, members in iteration order. -/
def storageToString (storage : Storage) : List Char :=
  serV (.obj (pairsToObj storage))

/-- Embedding of the load phase of `server_init` (lib.rs lines 38-44),
with the result of `fs::read_to_string(PERSIST)` passed in: a read failure
is propagated with `?` as a `ServerError::IoError` (startup fails); contents
that fail to deserialize fall back to `HashMap::new()` via `unwrap_or`. -/
def server_init_load (readResult : Except IoErrorKind (List Char)) :
    Except ServerError Storage :=
  match readResult with
  | .error e => .error (.ioError e)
  | .ok persisted =>
    .ok (match loadFromString persisted with
      | some m => m
      | none => [])

/-! ### Lemmas about the store -/

/-- Lookup after insert at the same key yields the inserted value. -/
theorem findKV_insertKV_self (s : Storage) (k : List Char) (v : Json) :
    findKV (insertKV s k v) k = some v := by
  induction s with
  | nil => simp [insertKV, findKV]
  | cons hd tl ih =>
    obtain ⟨k', v'⟩ := hd
    by_cases h : k' = k <;> simp [insertKV, findKV, h, ih]

/-- Lookup after insert at a different key is unchanged. -/
theorem findKV_insertKV_ne (s : Storage) (k k' : List Char) (v : Json)
    (h : k' ≠ k) : findKV (insertKV s k v) k' = findKV s k' := by
  have h' : k ≠ k' := fun he => h he.symm
  induction s with
  | nil => simp [insertKV, findKV, h']
  | cons hd tl ih =>
    obtain ⟨k'', v''⟩ := hd
    by_cases h2 : k'' = k <;> by_cases h3 : k'' = k' <;>
      simp_all [insertKV, findKV]

/-! ### String escaping round-trip -/

/-- Reading a hex digit back recovers its value. -/
theorem hexVal_hexDigit : ∀ n < 16, hexVal (hexDigit n) = some n := by decide

/-- Undoing the escapes recovers the string body: `parseStringBody` inverts
`escapeStr` up to the closing quote. -/
theorem parseStringBody_escapeStr (s : List Char) (rest : List Char) :
    parseStringBody (escapeStr s ++ '"' :: rest) = some (s, rest) := by
  induction s with
  | nil =>
    rw [show escapeStr [] ++ '"' :: rest = '"' :: rest from rfl, parseStringBody.eq_def]
    simp
  | cons c s ih =>
    have hsplit : escapeStr (c :: s) ++ '"' :: rest =
        escapeChar c ++ (escapeStr s ++ '"' :: rest) := by
      simp [escapeStr]
    rw [hsplit]
    by_cases hq : c = '"'
    · subst hq
      rw [show escapeChar '"' = ['\\', '"'] from rfl, List.cons_append, List.cons_append,
        List.nil_append, parseStringBody.eq_def]
      simp [ih]
    · by_cases hb : c = '\\'
      · subst hb
        rw [show escapeChar '\\' = ['\\', '\\'] from rfl, List.cons_append,
          List.cons_append, List.nil_append, parseStringBody.eq_def]
        simp [ih]
      · by_cases h8 : c.toNat = 8
        · have hc : c = Char.ofNat 8 := by rw [← h8, Char.ofNat_toNat]
          subst hc
          rw [show escapeChar (Char.ofNat 8) = ['\\', 'b'] from rfl, List.cons_append,
            List.cons_append, List.nil_append, parseStringBody.eq_def]
          simp [ih]
        · by_cases h9 : c.toNat = 9
          · have hc : c = Char.ofNat 9 := by rw [← h9, Char.ofNat_toNat]
            subst hc
            rw [show escapeChar (Char.ofNat 9) = ['\\', 't'] from rfl, List.cons_append,
              List.cons_append, List.nil_append, parseStringBody.eq_def]
            simp [ih]
          · by_cases h10 : c.toNat = 10
            · have hc : c = Char.ofNat 10 := by rw [← h10, Char.ofNat_toNat]
              subst hc
              rw [show escapeChar (Char.ofNat 10) = ['\\', 'n'] from rfl,
                List.cons_append, List.cons_append, List.nil_append,
                parseStringBody.eq_def]
              simp [ih]
            · by_cases h12 : c.toNat = 12
              · have hc : c = Char.ofNat 12 := by rw [← h12, Char.ofNat_toNat]
                subst hc
                rw [show escapeChar (Char.ofNat 12) = ['\\', 'f'] from rfl,
                  List.cons_append, List.cons_append, List.nil_append,
                  parseStringBody.eq_def]
                simp [ih]
              · by_cases h13 : c.toNat = 13
                · have hc : c = Char.ofNat 13 := by rw [← h13, Char.ofNat_toNat]
                  subst hc
                  rw [show escapeChar (Char.ofNat 13) = ['\\', 'r'] from rfl,
                    List.cons_append, List.cons_append, List.nil_append,
                    parseStringBody.eq_def]
                  simp [ih]
                · by_cases hctl : c.toNat < 0x20
                  · have hdiv : c.toNat / 16 < 16 := by omega
                    have hmod : c.toNat % 16 < 16 := Nat.mod_lt _ (by omega)
                    have e1 := hexVal_hexDigit _ hdiv
                    have e2 := hexVal_hexDigit _ hmod
                    have hec : escapeChar c = ['\\', 'u', '0', '0',
                        hexDigit (c.toNat / 16), hexDigit (c.toNat % 16)] := by
                      simp [escapeChar, hq, hb, h8, h9, h10, h12, h13, hctl]
                    rw [hec]
                    simp only [List.cons_append, List.nil_append]
                    rw [parseStringBody.eq_def]
                    have h0 : hexVal '0' = some 0 := by decide
                    simp only [reduceIte, h0, e1, e2]
                    have harith : ((0 * 16 + 0) * 16 + c.toNat / 16) * 16 +
                        c.toNat % 16 = c.toNat := by omega
                    have hsur : ¬(0xD800 ≤ ((0 * 16 + 0) * 16 + c.toNat / 16) * 16 +
                        c.toNat % 16 ∧ ((0 * 16 + 0) * 16 + c.toNat / 16) * 16 +
                        c.toNat % 16 ≤ 0xDFFF) := by omega
                    have hc : Char.ofNat (((0 * 16 + 0) * 16 + c.toNat / 16) * 16 +
                        c.toNat % 16) = c := by rw [harith, Char.ofNat_toNat]
                    simp [hsur, ih, hc]
                    refine ⟨by omega, ?_⟩
                    have hX : c.toNat / 16 * 16 + c.toNat % 16 = c.toNat := by omega
                    rw [hX, Char.ofNat_toNat]
                  · have hec : escapeChar c = [c] := by
                      simp [escapeChar, hq, hb, h8, h9, h10, h12, h13, hctl]
                    rw [hec, List.cons_append, List.nil_append, parseStringBody.eq_def]
                    simp [hq, hb, ih]

/-- The escaped form of a string determines the string: injectivity of the
JSON string serialization. -/
theorem escapeStr_injective {a b : List Char} (h : escapeStr a = escapeStr b) :
    a = b := by
  have ha := parseStringBody_escapeStr a []
  have hb := parseStringBody_escapeStr b []
  rw [h] at ha
  rw [ha] at hb
  simpa using hb

/-! ### Decimal digits round-trip -/

/-- A digit character rendered from a value below ten is an ASCII digit and
reads back to that value. -/
theorem digitChar_facts :
    ∀ n < 10, (Char.ofNat (48 + n)).isDigit = true ∧
      (Char.ofNat (48 + n)).toNat - 48 = n := by decide

/-- The decimal rendering of a natural number is nonempty. -/
theorem natDigits_ne_nil (n : Nat) : natDigits n ≠ [] := by
  rw [natDigits.eq_def]
  split <;> simp

/-- Every character of the decimal rendering is an ASCII digit. -/
theorem natDigits_all_digits (n : Nat) : ∀ c ∈ natDigits n, c.isDigit = true := by
  induction n using Nat.strong_induction_on with
  | _ n ih =>
    rw [natDigits.eq_def]
    split
    · next h =>
      intro c hc
      simp at hc
      subst hc
      exact (digitChar_facts n h).1
    · next h =>
      intro c hc
      simp at hc
      rcases hc with hc | hc
      · exact ih (n / 10) (by omega) c hc
      · subst hc
        exact (digitChar_facts (n % 10) (Nat.mod_lt _ (by omega))).1

/-- Accumulator equation: consuming the decimal rendering of `n` multiplies
the accumulator by the corresponding power of ten and adds `n`. -/
theorem parseNatAcc_natDigits (n : Nat) : ∀ (rest : List Char) (acc : Nat),
    parseNatAcc (natDigits n ++ rest) acc =
      parseNatAcc rest (acc * 10 ^ (natDigits n).length + n) := by
  induction n using Nat.strong_induction_on with
  | _ n ih =>
    intro rest acc
    rw [natDigits.eq_def]
    split
    · next h =>
      have hd := (digitChar_facts n h).1
      have hv := (digitChar_facts n h).2
      simp [parseNatAcc, hd, hv]
    · next h =>
      have hlt : n / 10 < n := Nat.div_lt_self (by omega) (by omega)
      have hd := (digitChar_facts (n % 10) (Nat.mod_lt _ (by omega))).1
      have hv := (digitChar_facts (n % 10) (Nat.mod_lt _ (by omega))).2
      rw [List.append_assoc, ih (n / 10) hlt, List.singleton_append, parseNatAcc,
        if_pos hd, hv, List.length_append, List.length_singleton]
      congr 1
      have hmod := Nat.div_add_mod n 10
      have hpow : (10 : Nat) ^ ((natDigits (n / 10)).length + 1) =
          10 ^ (natDigits (n / 10)).length * 10 := pow_succ 10 _
      set P := (10 : Nat) ^ (natDigits (n / 10)).length
      calc (acc * P + n / 10) * 10 + n % 10
          = acc * (P * 10) + (n / 10 * 10 + n % 10) := by ring
        _ = acc * 10 ^ ((natDigits (n / 10)).length + 1) + n := by
            rw [hpow]; omega

/-- Input not starting with a digit: the accumulating parser stops at once. -/
theorem parseNatAcc_stop (rest : List Char) (acc : Nat)
    (h : ∀ c, rest.head? = some c → c.isDigit = false) :
    parseNatAcc rest acc = (acc, rest) := by
  cases rest with
  | nil => simp [parseNatAcc]
  | cons c t => simp [parseNatAcc, h c rfl]

/-- Parsing the decimal rendering of `n` followed by non-digit input
recovers `n` and the rest. -/
theorem parseNat_natDigits (n : Nat) (rest : List Char)
    (h : ∀ c, rest.head? = some c → c.isDigit = false) :
    parseNat (natDigits n ++ rest) = some (n, rest) := by
  obtain ⟨d, t, hdt⟩ : ∃ d t, natDigits n = d :: t := by
    cases hnd : natDigits n with
    | nil => exact absurd hnd (natDigits_ne_nil n)
    | cons d t => exact ⟨d, t, rfl⟩
  have hd : d.isDigit = true := natDigits_all_digits n d (by rw [hdt]; simp)
  rw [hdt, List.cons_append, parseNat, if_pos hd, ← List.cons_append, ← hdt,
    parseNatAcc_natDigits, parseNatAcc_stop rest _ h]
  simp

/-! ### JSON serializer / parser round-trip -/

/-- Input that does not begin with an ASCII digit (so a parsed number cannot
leak into it). -/
abbrev noDigitHead (s : List Char) : Prop :=
  ∀ c, s.head? = some c → c.isDigit = false

/-- A digit character is none of the value-dispatch characters. -/
theorem digit_ne_dispatch (c : Char) (h : c.isDigit = true) :
    c ≠ 'n' ∧ c ≠ 't' ∧ c ≠ 'f' ∧ c ≠ '"' ∧ c ≠ '-' ∧ c ≠ '[' ∧ c ≠ '{' ∧
      c ≠ ']' ∧ c ≠ '}' := by
  refine ⟨?_, ?_, ?_, ?_, ?_, ?_, ?_, ?_, ?_⟩ <;>
    · intro he; subst he; simp [Char.isDigit] at h

/-- Every serialized value is nonempty. -/
theorem serV_length_pos (v : Json) : 1 ≤ (serV v).length := by
  cases v with
  | null => simp [serV]
  | bool b => cases b <;> simp [serV]
  | num n =>
    simp only [serV, serInt]
    split
    · simp
    · have := natDigits_ne_nil n.natAbs
      cases hnd : natDigits n.natAbs with
      | nil => exact absurd hnd this
      | cons d t => simp [hnd]
  | str s => simp [serV]
  | arr a => cases a <;> simp [serV]
  | obj m => cases m <;> simp [serV]

/-- Every serialized array tail is nonempty. -/
theorem serArrRest_length_pos (a : JsonArr) : 1 ≤ (serArrRest a).length := by
  cases a <;> simp [serArrRest]

/-- Every serialized object tail is nonempty. -/
theorem serObjRest_length_pos (m : JsonObj) : 1 ≤ (serObjRest m).length := by
  cases m <;> simp [serObjRest]

/-- The first character of a serialized value is never a closing bracket. -/
theorem serV_head_ne_close (v : Json) :
    ∃ c t, serV v = c :: t ∧ c ≠ ']' ∧ c ≠ '}' := by
  cases v with
  | null => exact ⟨'n', ['u', 'l', 'l'], by simp [serV], by decide, by decide⟩
  | bool b =>
    cases b with
    | false => exact ⟨'f', ['a', 'l', 's', 'e'], by simp [serV], by decide, by decide⟩
    | true => exact ⟨'t', ['r', 'u', 'e'], by simp [serV], by decide, by decide⟩
  | num n =>
    simp only [serV, serInt]
    split
    · exact ⟨'-', natDigits n.natAbs, rfl, by decide, by decide⟩
    · cases hnd : natDigits n.natAbs with
      | nil => exact absurd hnd (natDigits_ne_nil n.natAbs)
      | cons d t =>
        have hd : d.isDigit = true := natDigits_all_digits _ d (by rw [hnd]; simp)
        have hne := digit_ne_dispatch d hd
        exact ⟨d, t, rfl, hne.2.2.2.2.2.2.2.1, hne.2.2.2.2.2.2.2.2⟩
  | str s => exact ⟨'"', escapeStr s ++ ['"'], by simp [serV], by decide, by decide⟩
  | arr a =>
    cases a with
    | nil => exact ⟨'[', [']'], by simp [serV], by decide, by decide⟩
    | cons hd tl =>
      exact ⟨'[', serV hd ++ serArrRest tl, by simp [serV], by decide, by decide⟩
  | obj m =>
    cases m with
    | nil => exact ⟨'{', ['}'], by simp [serV], by decide, by decide⟩
    | cons k v tl =>
      exact ⟨'{', serMember k v ++ serObjRest tl, by simp [serV], by decide, by decide⟩

/-- A serialized array tail starts with `]` or `,`, never a digit. -/
theorem noDigitHead_serArrRest (tl : JsonArr) (rest : List Char) :
    noDigitHead (serArrRest tl ++ rest) := by
  cases tl <;> · intro c hc; simp [serArrRest] at hc; subst hc; decide

/-- A serialized object tail starts with `}` or `,`, never a digit. -/
theorem noDigitHead_serObjRest (tl : JsonObj) (rest : List Char) :
    noDigitHead (serObjRest tl ++ rest) := by
  cases tl <;> · intro c hc; simp [serObjRest] at hc; subst hc; decide

/-- Joint round-trip statement: with enough fuel, the parser inverts the
serializer for values, array tails and object tails. -/
theorem parse_ser_bundle : ∀ f : Nat,
    (∀ v rest, (serV v).length ≤ f → noDigitHead rest →
      parseValue f (serV v ++ rest) = some (v, rest)) ∧
    (∀ hd tl rest, (serV hd).length + (serArrRest tl).length ≤ f →
      parseArrElems f (serV hd ++ serArrRest tl ++ rest) = some (.cons hd tl, rest)) ∧
    (∀ k v tl rest, (serMember k v).length + (serObjRest tl).length ≤ f →
      parseObjMembers f (serMember k v ++ serObjRest tl ++ rest) =
        some (.cons k v tl, rest)) := by
  intro f
  induction f with
  | zero =>
    refine ⟨?_, ?_, ?_⟩
    · intro v rest hlen _
      exact absurd hlen (by have := serV_length_pos v; omega)
    · intro hd tl rest hlen
      exact absurd hlen
        (by have := serV_length_pos hd; have := serArrRest_length_pos tl; omega)
    · intro k v tl rest hlen
      exact absurd hlen
        (by have h1 : 1 ≤ (serMember k v).length := by simp [serMember]
            have := serObjRest_length_pos tl; omega)
  | succ f ih =>
    obtain ⟨ihV, ihA, ihO⟩ := ih
    refine ⟨?_, ?_, ?_⟩
    · -- values
      intro v rest hlen hnd
      cases v with
      | null =>
        simp only [serV, List.cons_append, List.nil_append, parseValue]
        simp
      | bool b =>
        cases b <;>
          · simp only [serV, List.cons_append, List.nil_append, parseValue]
            simp
      | str s =>
        simp only [serV, List.cons_append, List.append_assoc, List.singleton_append,
          parseValue]
        simp [parseStringBody_escapeStr]
      | num n =>
        by_cases hn : n < 0
        · have hser : serV (.num n) = '-' :: natDigits n.natAbs := by
            simp [serV, serInt, hn]
          rw [hser, List.cons_append]
          simp only [parseValue]
          rw [if_neg (by decide), if_neg (by decide), if_neg (by decide),
            if_neg (by decide), if_pos trivial, parseNat_natDigits n.natAbs rest hnd]
          have hval : -(n.natAbs : Int) = n := by omega
          show some (Json.num (-(n.natAbs : Int)), rest) = some (Json.num n, rest)
          rw [hval]
        · have hser : serV (.num n) = natDigits n.natAbs := by
            simp [serV, serInt, hn]
          obtain ⟨d, t, hdt⟩ : ∃ d t, natDigits n.natAbs = d :: t := by
            cases hnd2 : natDigits n.natAbs with
            | nil => exact absurd hnd2 (natDigits_ne_nil _)
            | cons d t => exact ⟨d, t, rfl⟩
          have hdig : d.isDigit = true := natDigits_all_digits _ d (by rw [hdt]; simp)
          have hne := digit_ne_dispatch d hdig
          rw [hser, hdt, List.cons_append]
          simp only [parseValue]
          rw [if_neg hne.1, if_neg hne.2.1, if_neg hne.2.2.1, if_neg hne.2.2.2.1,
            if_neg hne.2.2.2.2.1, if_pos hdig, ← List.cons_append, ← hdt,
            parseNat_natDigits n.natAbs rest hnd]
          have hval : (n.natAbs : Int) = n := by omega
          show some (Json.num ((n.natAbs : Int)), rest) = some (Json.num n, rest)
          rw [hval]
      | arr a =>
        cases a with
        | nil =>
          simp only [serV, List.cons_append, List.nil_append, parseValue]
          simp
        | cons hd tl =>
          have hser : serV (.arr (.cons hd tl)) = '[' :: (serV hd ++ serArrRest tl) := by
            simp [serV]
          have hlen' : (serV hd).length + (serArrRest tl).length ≤ f := by
            rw [hser] at hlen
            simp at hlen
            omega
          rw [hser, List.cons_append, List.append_assoc]
          simp only [parseValue]
          rw [if_neg (by decide), if_neg (by decide), if_neg (by decide),
            if_neg (by decide), if_neg (by decide), if_neg (by decide), if_pos trivial]
          obtain ⟨c0, t0, hc0, hne1, _⟩ := serV_head_ne_close hd
          split
          · next r heq =>
            exfalso
            rw [hc0, List.cons_append] at heq
            injection heq with h1 _
            exact hne1 h1
          · next heq =>
            rw [← List.append_assoc, ihA hd tl rest hlen']
            rfl
      | obj m =>
        cases m with
        | nil =>
          simp only [serV, List.cons_append, List.nil_append, parseValue]
          simp
        | cons k v tl =>
          have hser : serV (.obj (.cons k v tl)) =
              '{' :: (serMember k v ++ serObjRest tl) := by
            simp [serV]
          have hlen' : (serMember k v).length + (serObjRest tl).length ≤ f := by
            rw [hser] at hlen
            simp at hlen
            omega
          rw [hser, List.cons_append, List.append_assoc]
          simp only [parseValue]
          rw [if_neg (by decide), if_neg (by decide), if_neg (by decide),
            if_neg (by decide), if_neg (by decide), if_neg (by decide),
            if_neg (by decide), if_pos trivial]
          split
          · next r heq =>
            exfalso
            have hmem : serMember k v ++ (serObjRest tl ++ rest) =
                '"' :: (escapeStr k ++ '"' :: ':' :: serV v ++ (serObjRest tl ++ rest)) := by
              simp [serMember]
            rw [hmem] at heq
            injection heq with h1 _
            exact absurd h1 (by decide)
          · next heq =>
            rw [← List.append_assoc, ihO k v tl rest hlen']
            rfl
    · -- array tails
      intro hd tl rest hlen
      simp only [parseArrElems]
      have hlenV : (serV hd).length ≤ f := by
        have := serArrRest_length_pos tl
        omega
      rw [List.append_assoc, ihV hd (serArrRest tl ++ rest) hlenV
        (noDigitHead_serArrRest tl rest)]
      cases tl with
      | nil => simp [serArrRest]
      | cons hd2 tl2 =>
        have hrest : serArrRest (.cons hd2 tl2) ++ rest =
            ',' :: (serV hd2 ++ serArrRest tl2 ++ rest) := by
          simp [serArrRest]
        rw [hrest]
        have hlen2 : (serV hd2).length + (serArrRest tl2).length ≤ f := by
          have h1 : (serArrRest (JsonArr.cons hd2 tl2)).length =
              1 + (serV hd2).length + (serArrRest tl2).length := by
            simp [serArrRest]; omega
          omega
        simp only []
        rw [ihA hd2 tl2 rest hlen2]
        rfl
    · -- object tails
      intro k v tl rest hlen
      simp only [parseObjMembers]
      have hmem : serMember k v ++ serObjRest tl ++ rest =
          '"' :: (escapeStr k ++ '"' :: (':' :: (serV v ++ (serObjRest tl ++ rest)))) := by
        simp [serMember]
      rw [hmem]
      simp only []
      rw [parseStringBody_escapeStr]
      simp only []
      have hlenV : (serV v).length ≤ f := by
        have h1 : (serMember k v).length =
            (escapeStr k).length + (serV v).length + 3 := by
          simp [serMember]; omega
        have := serObjRest_length_pos tl
        omega
      rw [ihV v (serObjRest tl ++ rest) hlenV (noDigitHead_serObjRest tl rest)]
      cases tl with
      | nil => simp [serObjRest]
      | cons k2 v2 tl2 =>
        have hrest : serObjRest (.cons k2 v2 tl2) ++ rest =
            ',' :: (serMember k2 v2 ++ serObjRest tl2 ++ rest) := by
          simp [serObjRest]
        rw [hrest]
        simp only []
        have hlen2 : (serMember k2 v2).length + (serObjRest tl2).length ≤ f := by
          have h1 : (serObjRest (JsonObj.cons k2 v2 tl2)).length =
              1 + (serMember k2 v2).length + (serObjRest tl2).length := by
            simp [serObjRest]; omega
          have h2 : 1 ≤ (serMember k v).length := by simp [serMember]
          omega
        rw [ihO k2 v2 tl2 rest hlen2]
        rfl

/-- Full document round-trip: parsing the serialization of any value
recovers that value. -/
theorem from_str_serV (v : Json) : from_str (serV v) = some v := by
  have h := (parse_ser_bundle ((serV v).length + 1)).1 v []
    (by omega) (by intro c hc; simp at hc)
  rw [List.append_nil] at h
  rw [from_str, h]

/-- Pairs view is inverse to object construction. -/
theorem objToPairs_pairsToObj (m : List (List Char × Json)) :
    objToPairs (pairsToObj m) = m := by
  induction m with
  | nil => simp [pairsToObj, objToPairs]
  | cons hd tl ih =>
    obtain ⟨k, v⟩ := hd
    simp [pairsToObj, objToPairs, ih]

/-- Lookup distributes over append: the left list takes precedence. -/
theorem findKV_append (s t : Storage) (q : List Char) :
    findKV (s ++ t) q =
      match findKV s q with
      | some v => some v
      | none => findKV t q := by
  induction s with
  | nil => simp [findKV]
  | cons hd tl ih =>
    obtain ⟨k, v⟩ := hd
    by_cases h : k = q <;> simp [findKV, h, ih]

/-- Inserting a fresh key appends the entry. -/
theorem insertKV_append (acc : Storage) (k : List Char) (v : Json)
    (h : findKV acc k = none) : insertKV acc k v = acc ++ [(k, v)] := by
  induction acc with
  | nil => simp [insertKV]
  | cons hd tl ih =>
    obtain ⟨k', v'⟩ := hd
    by_cases h2 : k' = k
    · rw [findKV, if_pos h2] at h
      exact absurd h (by simp)
    · rw [findKV, if_neg h2] at h
      simp [insertKV, h2, ih h]

/-- Folding insertion over pairwise-fresh entries appends them all. -/
theorem foldl_insertKV_fresh : ∀ (m : List (List Char × Json)) (acc : Storage),
    (∀ p ∈ m, findKV acc p.1 = none) → (m.map Prod.fst).Nodup →
    m.foldl (fun a p => insertKV a p.1 p.2) acc = acc ++ m := by
  intro m
  induction m with
  | nil => intro acc _ _; simp
  | cons hd tl ih =>
    intro acc hfresh hnd
    obtain ⟨k, v⟩ := hd
    have hnd0 : (k :: tl.map Prod.fst).Nodup := by
      rw [List.map_cons] at hnd; exact hnd
    have hknotin : k ∉ tl.map Prod.fst := (List.nodup_cons.mp hnd0).1
    have hnd' : (tl.map Prod.fst).Nodup := (List.nodup_cons.mp hnd0).2
    have hk : findKV acc k = none := hfresh (k, v) (by simp)
    have hstep : insertKV acc k v = acc ++ [(k, v)] := insertKV_append acc k v hk
    have hfresh' : ∀ p ∈ tl, findKV (acc ++ [(k, v)]) p.1 = none := by
      intro p hp
      rw [findKV_append, hfresh p (by simp [hp])]
      have hkp : k ≠ p.1 := by
        intro he
        exact hknotin (he ▸ List.mem_map_of_mem Prod.fst hp)
      simp [findKV, hkp]
    rw [List.foldl_cons, hstep, ih (acc ++ [(k, v)]) hfresh' hnd']
    simp

/-- Building a map from entries with pairwise-distinct keys returns exactly
those entries. -/
theorem buildMap_nodup (m : List (List Char × Json))
    (h : (m.map Prod.fst).Nodup) : buildMap m = m := by
  rw [buildMap, foldl_insertKV_fresh m [] (by intro p _; simp [findKV]) h]
  simp

/-- Persistence round-trip at the map level: deserializing the serialization
of a store with pairwise-distinct keys (the `HashMap` invariant) recovers the
store. -/
theorem loadFromString_storageToString (m : Storage)
    (h : (m.map Prod.fst).Nodup) :
    loadFromString (storageToString m) = some m := by
  rw [storageToString, loadFromString, from_str_serV]
  show some (buildMap (objToPairs (pairsToObj m))) = some m
  rw [objToPairs_pairsToObj, buildMap_nodup m h]

/-- Injectivity of the JSON rendering of strings: distinct strings have
distinct serializations. -/
theorem serV_str_injective {a b : List Char}
    (h : serV (.str a) = serV (.str b)) : a = b := by
  have h2 : escapeStr a ++ '"' :: [] = escapeStr b ++ '"' :: [] := by
    simp only [serV, List.cons.injEq] at h
    simpa using h.2
  have ha := parseStringBody_escapeStr a []
  have hb := parseStringBody_escapeStr b []
  rw [h2] at ha
  rw [ha] at hb
  simpa using hb

/-! ### Buffer decoding and request dispatch lemmas -/

/-- Lossy UTF-8 decoding of a nonempty byte list is nonempty: the decoder
always emits a character (possibly U+FFFD) for the first byte. -/
theorem utf8Lossy_ne_nil (b : UInt8) (rest : List UInt8) :
    utf8Lossy (b :: rest) ≠ [] := by
  rcases hdec : utf8DecodeOne b rest with ⟨c, k⟩
  simp only [utf8Lossy, hdec]
  simp

/-- A nonempty string always has a first line. -/
theorem linesNext_of_ne_nil (s : List Char) (h : s ≠ []) :
    ∃ l, linesNext s = some l := by
  cases s with
  | nil => exact absurd rfl h
  | cons c rest =>
    simp only [linesNext]
    split
    · exact ⟨_, rfl⟩
    · exact ⟨_, rfl⟩

/-- On a nonempty buffer, `parse_request` can never report
`NoRequestFound`: the decoded text is nonempty, so a first line exists, and
every dispatch branch returns a different outcome. -/
theorem parse_request_ne_noRequestFound (b : UInt8) (rest : List UInt8) :
    parse_request (b :: rest) ≠ .error .noRequestFound := by
  obtain ⟨l, hl⟩ := linesNext_of_ne_nil _ (utf8Lossy_ne_nil b rest)
  simp only [parse_request, hl]
  cases hg : GET_HEADER.isPrefixOf l with
  | true =>
    simp only [hg, if_true]
    cases hpg : parse_get l <;> simp
  | false =>
    cases hs : SET_HEADER.isPrefixOf l with
    | true =>
      simp only [hg, hs, if_true, if_false, Bool.false_eq_true]
      cases hps : parse_set l <;> simp
    | false =>
      simp [hg, hs]

/-- Dispatch on an unrecognized first line: neither prefix matches, so
`parse_request` reports `InvalidRequest`. -/
theorem parse_request_unrecognized (buffer : List UInt8) (l : List Char)
    (hl : linesNext (utf8Lossy buffer) = some l)
    (hg : GET_HEADER.isPrefixOf l = false) (hs : SET_HEADER.isPrefixOf l = false) :
    parse_request buffer = .error .invalidRequest := by
  simp only [parse_request, hl, hg, hs, Bool.false_eq_true, if_false]

/-! ### Split lemmas -/

/-- When the pattern occurs nowhere in the input (not at any suffix), the
split worker returns the whole input as the only segment. -/
theorem splitGo_of_no_occurrence (c0 : Char) (sep' : List Char) :
    ∀ s : List Char,
    (∀ sfx, sfx <:+ s → ¬(c0 :: sep').isPrefixOf sfx) → splitGo c0 sep' s = [s] := by
  intro s
  induction s with
  | nil => intro _; simp [splitGo]
  | cons c rest ih =>
    intro h
    have hhead : ¬(c = c0 ∧ sep'.isPrefixOf rest) := by
      intro ⟨he, hp⟩
      subst he
      exact h (c :: rest) (List.suffix_refl _) (by simp [List.isPrefixOf_cons₂, hp])
    have hrest : ∀ sfx, sfx <:+ rest → ¬(c0 :: sep').isPrefixOf sfx := by
      intro sfx hsfx
      exact h sfx (hsfx.trans (List.suffix_cons c rest))
    rw [splitGo.eq_def]
    simp only [if_neg hhead]
    rw [ih hrest]

/-- A character of the pattern missing from the input rules out every
occurrence of the pattern. -/
theorem no_occurrence_of_not_mem (c0 : Char) (sep' : List Char) (s : List Char)
    (ch : Char) (hch : ch ∈ c0 :: sep') (hmem : ch ∉ s) :
    ∀ sfx, sfx <:+ s → ¬(c0 :: sep').isPrefixOf sfx := by
  intro sfx hsfx hpre
  have hpre' : (c0 :: sep') <+: sfx := by
    rwa [List.isPrefixOf_iff_prefix] at hpre
  exact hmem (hsfx.subset (hpre'.subset hch))

/-- Splitting on a single separator character recovers the two pieces when
neither piece contains the separator. -/
theorem splitGo_single (sep : Char) :
    ∀ (k v : List Char), sep ∉ k → sep ∉ v →
    splitGo sep [] (k ++ sep :: v) = [k, v] := by
  intro k
  induction k with
  | nil =>
    intro v _ hv
    have hv' := splitGo_of_no_occurrence sep [] v
      (no_occurrence_of_not_mem sep [] v sep (by simp) hv)
    rw [List.nil_append, splitGo.eq_def]
    simp [hv']
  | cons c k' ih =>
    intro v hk hv
    have hc : ¬(c = sep ∧ ([] : List Char).isPrefixOf (k' ++ sep :: v)) := by
      intro ⟨he, _⟩
      exact hk (by simp [he])
    rw [List.cons_append, splitGo.eq_def]
    simp only [if_neg hc]
    rw [ih v (fun h => hk (by simp [h])) hv]

/-- Byte encoding of an ASCII string, used to build concrete request
buffers (each character below 0x80 is one byte). -/
def asciiBytes (s : List Char) : List UInt8 :=
  s.map (fun c => UInt8.ofNat c.toNat)

/-- Lossy UTF-8 decoding inverts the ASCII encoding. -/
theorem utf8Lossy_asciiBytes (s : List Char) (h : ∀ c ∈ s, c.toNat < 128) :
    utf8Lossy (asciiBytes s) = s := by
  induction s with
  | nil => simp [asciiBytes, utf8Lossy]
  | cons c rest ih =>
    have hc : c.toNat < 128 := h c (by simp)
    have hb : (UInt8.ofNat c.toNat).toNat = c.toNat := by
      show c.toNat % 256 = c.toNat
      omega
    have hle : UInt8.ofNat c.toNat ≤ 0x7F := by
      show c.toNat % 256 ≤ 127
      omega
    have hdec : utf8DecodeOne (UInt8.ofNat c.toNat)
        (List.map (fun x => UInt8.ofNat x.toNat) rest) = (c, 0) := by
      simp only [utf8DecodeOne]
      rw [if_pos hle, hb, Char.ofNat_toNat]
    rw [show asciiBytes (c :: rest) =
      UInt8.ofNat c.toNat :: List.map (fun x => UInt8.ofNat x.toNat) rest from rfl]
    rw [utf8Lossy, hdec]
    simp only [List.drop_zero]
    show c :: utf8Lossy (asciiBytes rest) = c :: rest
    rw [ih (fun c hc => h c (by simp [hc]))]

/-- Taking while the predicate holds through a satisfying block stops exactly
at the first failing element. -/
theorem takeWhile_block (p : Char → Bool) :
    ∀ (tok : List Char) (w : Char) (rest : List Char),
    (∀ c ∈ tok, p c = true) → p w = false →
    (tok ++ w :: rest).takeWhile p = tok := by
  intro tok
  induction tok with
  | nil => intro w rest _ hw; simp [List.takeWhile, hw]
  | cons c t ih =>
    intro w rest hall hw
    have hc : p c = true := hall c (by simp)
    simp only [List.cons_append, List.takeWhile_cons, hc, if_true]
    rw [ih w rest (fun c hc2 => hall c (by simp [hc2])) hw]

/-- The first whitespace-delimited token of `tok ++ w :: rest`, when `tok`
is a nonempty all-non-whitespace block and `w` is whitespace, is `tok`. -/
theorem splitWhitespaceNext_block (tok : List Char) (w : Char) (rest : List Char)
    (hne : tok ≠ []) (hall : ∀ c ∈ tok, rustIsWhitespace c = false)
    (hw : rustIsWhitespace w = true) :
    splitWhitespaceNext (tok ++ w :: rest) = some tok := by
  cases tok with
  | nil => exact absurd rfl hne
  | cons c t =>
    have hc : rustIsWhitespace c = false := hall c (by simp)
    have hdrop : (c :: t ++ w :: rest).dropWhile rustIsWhitespace =
        c :: (t ++ w :: rest) := by
      simp [List.dropWhile_cons, hc]
    rw [splitWhitespaceNext, hdrop]
    have htake : (c :: (t ++ w :: rest)).takeWhile (fun ch => !rustIsWhitespace ch) =
        c :: t := by
      rw [show c :: (t ++ w :: rest) = (c :: t) ++ w :: rest from by simp]
      exact takeWhile_block _ (c :: t) w rest
        (by intro x hx; simp [hall x hx]) (by simp [hw])
    show some ((c :: (t ++ w :: rest)).takeWhile (fun ch => !rustIsWhitespace ch)) =
      some (c :: t)
    rw [htake]

/-- Splitting a well-formed set request on `"set?"` yields exactly the fixed
prefix and the tail, provided the tail has no question mark (so the pattern
cannot reoccur). -/
theorem rustSplit_setHeader (tail : List Char) (h : '?' ∉ tail) :
    rustSplit "set?".toList ("GET /set?".toList ++ tail) =
      ["GET /".toList, tail] := by
  have htail := splitGo_of_no_occurrence 's' ['e', 't', '?'] tail
    (no_occurrence_of_not_mem 's' ['e', 't', '?'] tail '?' (by simp) h)
  show splitGo 's' ['e', 't', '?']
    ('G' :: 'E' :: 'T' :: ' ' :: '/' :: 's' :: 'e' :: 't' :: '?' :: tail) = _
  simp [splitGo, List.isPrefixOf, htail]

/-- A well-formed set request (no `?`, `=`, or whitespace inside key and
value) parses to exactly that key and value: the first whitespace token
after `set?` is split on `=` into the two segments. -/
theorem parse_set_wellformed (k v : List Char)
    (hqk : '?' ∉ k) (hqv : '?' ∉ v) (hek : '=' ∉ k) (hev : '=' ∉ v)
    (hwk : ∀ c ∈ k, rustIsWhitespace c = false)
    (hwv : ∀ c ∈ v, rustIsWhitespace c = false) :
    parse_set ("GET /set?".toList ++ (k ++ '=' :: v) ++ " HTTP/1.1".toList) =
      .ok (k, v) := by
  have hne : k ++ '=' :: v ≠ [] := by simp
  have hblock := splitWhitespaceNext_block (k ++ '=' :: v) ' ' ("HTTP/1.1".toList) hne
    (by
      intro c hc
      rcases List.mem_append.mp hc with h | h
      · exact hwk c h
      · rcases List.mem_cons.mp h with he | h
        · subst he; decide
        · exact hwv c h)
    (by decide)
  have hkv := splitGo_single '=' k v hek hev
  have hqtail : '?' ∉ (k ++ '=' :: v) ++ " HTTP/1.1".toList := by
    intro hmem
    rcases List.mem_append.mp hmem with h | h
    · rcases List.mem_append.mp h with h | h
      · exact hqk h
      · rcases List.mem_cons.mp h with he | h
        · exact absurd he (by decide)
        · exact hqv h
    · exact absurd h (by decide)
  have hsplit := rustSplit_setHeader _ hqtail
  rw [show "GET /set?".toList ++ (k ++ '=' :: v) ++ " HTTP/1.1".toList =
    "GET /set?".toList ++ ((k ++ '=' :: v) ++ " HTTP/1.1".toList) from by
      rw [List.append_assoc]]
  simp only [parse_set]
  rw [hsplit]
  simp only [List.length_cons, List.length_nil, List.getLastD_cons, List.getLastD_nil]
  rw [if_neg (by decide)]
  rw [show " HTTP/1.1".toList = ' ' :: "HTTP/1.1".toList from rfl]
  rw [hblock]
  simp only [rustSplit]
  rw [hkv]
  simp

/-! ### Claim theorems -/

/-- Claim C1, counterexample: after `Set("k", "red")`, `Get("k")` does not
return a `GetSuccess` carrying the string `red` itself — the payload is the
JSON rendering `"red"` (with quotes), because the store holds
`Value::from("red")` and renders it with `Value::to_string()`. -/
theorem claim_C1_counterexample :
    (handle_request (.get "k".toList)
        ((handle_request (.set "k".toList "red".toList) []).2)).1 =
      .getSuccess ("\"red\"".toList) ∧
    (handle_request (.get "k".toList)
        ((handle_request (.set "k".toList "red".toList) []).2)).1 ≠
      .getSuccess ("red".toList) := by
  constructor
  · simp [handle_request, insertKV, findKV, serV, escapeStr, escapeChar]
  · simp [handle_request, insertKV, findKV, serV, escapeStr, escapeChar]

/-- Claim C1, amended: for every key and value, `Set(k, v)` followed by
`Get(k)` yields a `GetSuccess` carrying the JSON serialization of the stored
string value `Value::from(v)` — the set value rendered as a JSON string, not
the bare characters of `v`. -/
theorem claim_C1_amended (s : Storage) (k v : List Char) :
    handle_request (.get k) ((handle_request (.set k v) s).2) =
      (.getSuccess (serV (.str v)), (handle_request (.set k v) s).2) := by
  simp [handle_request, findKV_insertKV_self]

/-- Claim C2, counterexample: when reading the snapshot file fails (file
missing), `server_init` does not fall back to the empty mapping — the `?`
on `fs::read_to_string` propagates the IO error and startup fails. -/
theorem claim_C2_counterexample :
    server_init_load (.error .notFound) = .error (.ioError .notFound) ∧
    server_init_load (.error .notFound) ≠ .ok ([] : Storage) := by
  constructor
  · rfl
  · simp [server_init_load]

/-- Claim C2, amended: the empty-mapping fallback applies only to
deserialization failure of successfully read contents (`unwrap_or`); a read
failure (missing or unreadable file) aborts startup with the IO error. -/
theorem claim_C2_amended :
    (∀ contents, loadFromString contents = none →
      server_init_load (.ok contents) = .ok ([] : Storage)) ∧
    (∀ e, server_init_load (.error e) = .error (.ioError e)) := by
  constructor
  · intro contents h
    simp [server_init_load, h]
  · intro e
    rfl

/-- Claim C2, witness: empty snapshot contents fail to deserialize, and the
load falls back to the empty mapping. -/
theorem claim_C2_witness :
    loadFromString ("".toList) = none ∧
    server_init_load (.ok ("".toList)) = .ok ([] : Storage) := by
  have h : loadFromString ("".toList) = none := by
    simp [loadFromString, from_str, parseValue]
  exact ⟨h, claim_C2_amended.1 _ h⟩

/-- Claim C3: on the request line `GET /get?key= HTTP/1.1` the parser does
not fail with `MissingKey` — `split_whitespace` skips the space after
`key=` and returns the HTTP version token as the key; `MissingKey` fires
only when nothing but whitespace follows `key=`. -/
theorem claim_C3_code_bug :
    parse_get ("GET /get?key= HTTP/1.1".toList) = .ok ("HTTP/1.1".toList) ∧
    parse_get ("GET /get?key= HTTP/1.1".toList) ≠ .error .missingKey ∧
    parse_get ("GET /get?key=".toList) = .error .missingKey := by
  refine ⟨?_, ?_, ?_⟩
  · simp [parse_get, rustSplit, splitGo, splitWhitespaceNext, rustIsWhitespace,
      List.isPrefixOf, List.dropWhile, List.takeWhile]
  · simp [parse_get, rustSplit, splitGo, splitWhitespaceNext, rustIsWhitespace,
      List.isPrefixOf, List.dropWhile, List.takeWhile]
  · simp [parse_get, rustSplit, splitGo, splitWhitespaceNext, rustIsWhitespace,
      List.isPrefixOf, List.dropWhile, List.takeWhile]

/-- Claim C4: overwrite is last-write-wins — after `Set(k, v1)` then
`Set(k, v2)`, a `Get(k)` renders the stored `v2` and, when `v1 ≠ v2`, can
never render `v1` (the JSON string rendering is injective). -/
theorem claim_C4 (s : Storage) (k v1 v2 : List Char) :
    (handle_request (.get k)
        ((handle_request (.set k v2) ((handle_request (.set k v1) s).2)).2)).1 =
      .getSuccess (serV (.str v2)) ∧
    (v1 ≠ v2 →
      (handle_request (.get k)
          ((handle_request (.set k v2) ((handle_request (.set k v1) s).2)).2)).1 ≠
        .getSuccess (serV (.str v1))) := by
  have hmain : (handle_request (.get k)
      ((handle_request (.set k v2) ((handle_request (.set k v1) s).2)).2)).1 =
      .getSuccess (serV (.str v2)) := by
    simp [handle_request, findKV_insertKV_self]
  refine ⟨hmain, ?_⟩
  intro hne heq
  rw [hmain] at heq
  injection heq with hpay
  exact hne (serV_str_injective hpay).symm

/-- Claim C4, witness: concrete overwrite with distinct values. -/
theorem claim_C4_witness :
    ("red".toList ≠ "blue".toList) ∧
    (handle_request (.get "k".toList)
        ((handle_request (.set "k".toList "blue".toList)
          ((handle_request (.set "k".toList "red".toList) []).2)).2)).1 =
      .getSuccess (serV (.str "blue".toList)) ∧
    (handle_request (.get "k".toList)
        ((handle_request (.set "k".toList "blue".toList)
          ((handle_request (.set "k".toList "red".toList) []).2)).2)).1 ≠
      .getSuccess (serV (.str "red".toList)) :=
  ⟨by decide, (claim_C4 [] "k".toList "red".toList "blue".toList).1,
    (claim_C4 [] "k".toList "red".toList "blue".toList).2 (by decide)⟩

/-- Claim C5: persistence round-trips losslessly — serializing the store as
the `Drop` flush does and deserializing as `server_init` does returns the
same mapping (the key-uniqueness hypothesis is the `HashMap` invariant). -/
theorem claim_C5 (m : Storage) (h : (m.map Prod.fst).Nodup) :
    loadFromString (storageToString m) = some m :=
  loadFromString_storageToString m h

/-- Claim C5, witness: a concrete two-entry store round-trips. -/
theorem claim_C5_witness :
    ((([("a".toList, Json.str "x".toList), ("b".toList, Json.num 3)] :
      Storage).map Prod.fst).Nodup) ∧
    loadFromString (storageToString
        [("a".toList, Json.str "x".toList), ("b".toList, Json.num 3)]) =
      some [("a".toList, Json.str "x".toList), ("b".toList, Json.num 3)] :=
  ⟨by decide, claim_C5 _ (by decide)⟩

/-- Claim C6: a request whose first line starts with neither
`GET /get?key=` nor `GET /set?` makes `parse_request` fail with
`InvalidRequest`, and the listener loop writes no response bytes and
continues to the next connection. -/
theorem claim_C6 (buffer : List UInt8) (storage : Storage)
    (files : List Char → Option (List Char)) (l : List Char)
    (hl : linesNext (utf8Lossy buffer) = some l)
    (hg : GET_HEADER.isPrefixOf l = false)
    (hs : SET_HEADER.isPrefixOf l = false) :
    parse_request buffer = .error .invalidRequest ∧
    serverStep files buffer storage = (none, storage, .continueLoop) := by
  have hp := parse_request_unrecognized buffer l hl hg hs
  refine ⟨hp, ?_⟩
  simp [serverStep, hp]

/-- Claim C6, witness: the concrete request `GET /other HTTP/1.1`. -/
theorem claim_C6_witness :
    (linesNext (utf8Lossy (asciiBytes ("GET /other HTTP/1.1\r\n".toList))) =
      some ("GET /other HTTP/1.1".toList)) ∧
    parse_request (asciiBytes ("GET /other HTTP/1.1\r\n".toList)) =
      .error .invalidRequest ∧
    serverStep (fun _ => none) (asciiBytes ("GET /other HTTP/1.1\r\n".toList)) [] =
      (none, ([] : Storage), .continueLoop) := by
  have hascii : utf8Lossy (asciiBytes ("GET /other HTTP/1.1\r\n".toList)) =
      "GET /other HTTP/1.1\r\n".toList :=
    utf8Lossy_asciiBytes _ (by decide)
  have hl : linesNext (utf8Lossy (asciiBytes ("GET /other HTTP/1.1\r\n".toList))) =
      some ("GET /other HTTP/1.1".toList) := by
    rw [hascii]
    decide
  have h := claim_C6 (asciiBytes ("GET /other HTTP/1.1\r\n".toList)) []
    (fun _ => none) ("GET /other HTTP/1.1".toList) hl (by decide) (by decide)
  exact ⟨hl, h.1, h.2⟩

/-- Claim C7, counterexample: the set parser does not split once on `=` — it
splits on every `=` and requires exactly two segments, so the token `a=b=c`
is rejected as malformed (code 3) instead of yielding key `a`, value `b=c`. -/
theorem claim_C7_counterexample :
    parse_set ("GET /set?a=b=c HTTP/1.1".toList) = .error (.invalidRequest 3) ∧
    parse_set ("GET /set?a=b=c HTTP/1.1".toList) ≠
      .ok ("a".toList, "b=c".toList) := by
  have h : parse_set ("GET /set?a=b=c HTTP/1.1".toList) =
      .error (.invalidRequest 3) := by
    simp [parse_set, rustSplit, splitGo, splitWhitespaceNext, rustIsWhitespace,
      List.isPrefixOf, List.dropWhile, List.takeWhile]
  refine ⟨h, ?_⟩
  rw [h]
  simp

/-- Claim C7, amended: the parser takes the first whitespace-delimited token
after `set?` and splits it on every `=`, requiring exactly two segments: a
token with exactly one `=` is accepted (in particular `a=` gives the empty
value), and a token with more than one `=` such as `a=b=c` is rejected as
malformed. -/
theorem claim_C7_amended :
    (∀ k v : List Char,
      '?' ∉ k → '?' ∉ v → '=' ∉ k → '=' ∉ v →
      (∀ c ∈ k, rustIsWhitespace c = false) →
      (∀ c ∈ v, rustIsWhitespace c = false) →
      parse_set ("GET /set?".toList ++ (k ++ '=' :: v) ++ " HTTP/1.1".toList) =
        .ok (k, v)) ∧
    parse_set ("GET /set?a= HTTP/1.1".toList) = .ok ("a".toList, []) ∧
    parse_set ("GET /set?a=b=c HTTP/1.1".toList) = .error (.invalidRequest 3) := by
  refine ⟨fun k v h1 h2 h3 h4 h5 h6 => parse_set_wellformed k v h1 h2 h3 h4 h5 h6,
    ?_, ?_⟩
  · simp [parse_set, rustSplit, splitGo, splitWhitespaceNext, rustIsWhitespace,
      List.isPrefixOf, List.dropWhile, List.takeWhile]
  · simp [parse_set, rustSplit, splitGo, splitWhitespaceNext, rustIsWhitespace,
      List.isPrefixOf, List.dropWhile, List.takeWhile]

/-- Claim C7, witness: a concrete well-formed set request. -/
theorem claim_C7_witness :
    ('?' ∉ "color".toList) ∧ ('=' ∉ "color".toList) ∧
    ('?' ∉ "red".toList) ∧ ('=' ∉ "red".toList) ∧
    (∀ c ∈ "color".toList, rustIsWhitespace c = false) ∧
    (∀ c ∈ "red".toList, rustIsWhitespace c = false) ∧
    parse_set ("GET /set?".toList ++ ("color".toList ++ '=' :: "red".toList) ++
        " HTTP/1.1".toList) = .ok ("color".toList, "red".toList) :=
  ⟨by decide, by decide, by decide, by decide, by decide, by decide,
    claim_C7_amended.1 "color".toList "red".toList (by decide) (by decide)
      (by decide) (by decide) (by decide) (by decide)⟩

/-- Claim C8: a `Get` on an absent key returns `NotFound`, and a `Get`
never mutates the store (for any key, present or absent). -/
theorem claim_C8 (s : Storage) (k : List Char) :
    (findKV s k = none → handle_request (.get k) s = (.notFound, s)) ∧
    (handle_request (.get k) s).2 = s := by
  constructor
  · intro h
    simp [handle_request, h]
  · cases hf : findKV s k <;> simp [handle_request, hf]

/-- Claim C8, witness: a key absent from the empty store, and a get on a
populated store leaving it unchanged. -/
theorem claim_C8_witness :
    findKV ([] : Storage) ("missing".toList) = none ∧
    handle_request (.get ("missing".toList)) [] = (.notFound, []) ∧
    (handle_request (.get ("missing".toList))
        ([("a".toList, Json.str "x".toList)] : Storage)).2 =
      [("a".toList, Json.str "x".toList)] :=
  ⟨rfl, (claim_C8 [] ("missing".toList)).1 rfl,
    (claim_C8 [("a".toList, Json.str "x".toList)] ("missing".toList)).2⟩

/-- Claim C9: the `NoRequestFound` branch is unreachable for the 1024-byte
read buffer — lossy decoding of a nonempty buffer is nonempty, so a first
line always exists and `parse_request` never reports `NoRequestFound`. -/
theorem claim_C9 (buffer : List UInt8) (h : buffer.length = 1024) :
    utf8Lossy buffer ≠ [] ∧ linesNext (utf8Lossy buffer) ≠ none ∧
    parse_request buffer ≠ .error .noRequestFound := by
  cases buffer with
  | nil => simp at h
  | cons b rest =>
    refine ⟨utf8Lossy_ne_nil b rest, ?_, parse_request_ne_noRequestFound b rest⟩
    obtain ⟨l, hl⟩ := linesNext_of_ne_nil _ (utf8Lossy_ne_nil b rest)
    simp [hl]

/-- Claim C9, witness: the all-zero 1024-byte buffer. -/
theorem claim_C9_witness :
    (List.replicate 1024 (0 : UInt8)).length = 1024 ∧
    utf8Lossy (List.replicate 1024 (0 : UInt8)) ≠ [] ∧
    linesNext (utf8Lossy (List.replicate 1024 (0 : UInt8))) ≠ none ∧
    parse_request (List.replicate 1024 (0 : UInt8)) ≠ .error .noRequestFound := by
  have h := claim_C9 (List.replicate 1024 0) (List.length_replicate 1024 0)
  exact ⟨List.length_replicate 1024 0, h.1, h.2.1, h.2.2⟩

/-- Claim C10: every value a `Set` inserts is the JSON string value
`Value::from(v)`, and the `GetSuccess` payload for such a value is its
JSON-quoted form — the escaped string enclosed in double quotes. -/
theorem claim_C10 (s : Storage) (k v : List Char) :
    findKV ((handle_request (.set k v) s).2) k = some (.str v) ∧
    (handle_request (.get k) ((handle_request (.set k v) s).2)).1 =
      .getSuccess ('"' :: (escapeStr v ++ ['"'])) := by
  constructor
  · simp [handle_request, findKV_insertKV_self]
  · simp [handle_request, findKV_insertKV_self, serV]

end DbServer
